import Mathlib

/-!
Verification development for the Stickerei catalogue-extraction scripts.

The Python sources are shallowly embedded over `List Char`:

* `src/scraper/extract_prices_position.py` — `extract_product_data`,
  `clean_product_name` and the script body (filter, CSV write, count print);
* `src/scraper/scrape_pdf_images.py` — the geometric image/text association
  inside `extract_images_with_pattern`;
* `src/scraper/extract_product_info.py` — `extract_product_text_data` and the
  parts of `parse_product_text` the claims touch (id and price fields);
* `src/search_price.py` — `find_price` and the CLI entry `main`.

Regular-expression matching is embedded by hand-compiled deterministic
matchers for the concrete patterns appearing in the sources, including the
one backtracking corner those patterns have (the `\s*` before `[^\n€]+`
giving back a trailing whitespace character when the name class cannot start
after the whitespace run).  Scanners take fuel equal to the input length,
which each step strictly decreases by at least one, so the fuel never runs
out before the text does.
-/

/-- Python `\s` / `str.strip` whitespace, restricted to the ASCII range. -/
def pyIsSpace (c : Char) : Bool :=
  c = ' ' || c = '\t' || c = '\n' || c = '\r' || c = '\x0b' || c = '\x0c'

/-- Character class `[A-Za-z0-9]` of the identifier pattern. -/
def isAlnum (c : Char) : Bool := c.isAlpha || c.isDigit

/-- Character class `[\d\w]` (ASCII) of the product-info pattern. -/
def isWordChar (c : Char) : Bool := c.isAlpha || c.isDigit || c = '_'

/-- Character class `[^\n€]` terminating a product name. -/
def notNlEuro (c : Char) : Bool := !(c = '\n' || c = '€')

/-- Greedy span: longest prefix satisfying `p`, paired with the remainder. -/
def spanP (p : Char → Bool) : List Char → List Char × List Char
  | [] => ([], [])
  | c :: cs =>
    if p c then
      let r := spanP p cs
      (c :: r.1, r.2)
    else ([], c :: cs)

/-- Python `str.strip()` with no argument: drop whitespace at both ends. -/
def pyStrip (s : List Char) : List Char :=
  ((spanP pyIsSpace ((spanP pyIsSpace s).2.reverse)).2).reverse

/-- Python `str.replace(',', '.')`: every comma becomes a dot. -/
def replaceComma (s : List Char) : List Char :=
  s.map (fun c => if c = ',' then '.' else c)

/-- Helper for `re.sub(r'\s+', ' ', s)`: the flag records whether the previous
character was inside a whitespace run already collapsed to one space. -/
def collapseWsAux : Bool → List Char → List Char
  | _, [] => []
  | inRun, c :: cs =>
    if pyIsSpace c then
      if inRun then collapseWsAux true cs else ' ' :: collapseWsAux true cs
    else c :: collapseWsAux false cs

/-- `re.sub(r'\s+', ' ', s)`: each maximal whitespace run becomes one space. -/
def collapseWs (s : List Char) : List Char := collapseWsAux false s

/-- Emit a pending (reversed) whitespace run for `re.sub(r'\s*\n\s*', ' ', s)`:
a run containing a newline is replaced by one space, others are kept. -/
def flushWsRun (pend rest : List Char) : List Char :=
  if ('\n') ∈ pend then ' ' :: rest else pend.reverse ++ rest

/-- Worker for `re.sub(r'\s*\n\s*', ' ', s)`; `pend` is the reversed
whitespace run currently being scanned. -/
def collapseNlAux : List Char → List Char → List Char
  | pend, [] => flushWsRun pend []
  | pend, c :: cs =>
    if pyIsSpace c then collapseNlAux (c :: pend) cs
    else flushWsRun pend (c :: collapseNlAux [] cs)

/-- `re.sub(r'\s*\n\s*', ' ', s)`: each maximal whitespace run containing a
newline becomes one space. -/
def collapseNlRuns (s : List Char) : List Char := collapseNlAux [] s

/-- `clean_product_name` from `extract_prices_position.py`: collapse
whitespace runs, collapse newline runs, then strip. -/
def clean_product_name (name : List Char) : List Char :=
  pyStrip (collapseNlRuns (collapseWs name))

/-- List-of-chars prefix test (used to embed Python's `in` on strings). -/
def startsWithL : List Char → List Char → Bool
  | [], _ => true
  | _ :: _, [] => false
  | a :: as, b :: bs => a = b && startsWithL as bs

/-- Python `needle in hay` for strings: contiguous substring test. -/
def containsSub (needle : List Char) : List Char → Bool
  | [] => startsWithL needle []
  | c :: t => startsWithL needle (c :: t) || containsSub needle t

/-- Python `s.lower()`, restricted to the ASCII range. -/
def lowerStr (s : List Char) : List Char := s.map Char.toLower

/-- Python `s.split('|', 1)`: text before the first pipe and text after it. -/
def splitOnFirstPipe : List Char → List Char × List Char
  | [] => ([], [])
  | c :: cs =>
    if c = '|' then ([], cs)
    else
      let r := splitOnFirstPipe cs
      (c :: r.1, r.2)

/-- `re.sub(r'^[\.\s]+', '', s)`: drop the leading run of dots/whitespace. -/
def dropLeadingDotsSpaces (s : List Char) : List Char :=
  s.dropWhile (fun c => c = '.' || pyIsSpace c)

/-- One output row of `extract_product_data` (keys Page, ID, Name, Price). -/
structure Record where
  page : Nat
  productId : List Char
  name : List Char
  price : List Char
deriving DecidableEq, Repr

/-- Greedy `(?:\.[A-Za-z0-9]+)+` tail of the identifier pattern; returns the
consumed characters, the remainder, and the number of groups consumed.  The
fuel is instantiated with the input length by the caller; each recursive step
consumes at least two characters, so it cannot run out first. -/
def dotSegsGo : Nat → List Char → List Char × List Char × Nat
  | 0, cs => ([], cs, 0)
  | fuel + 1, cs =>
    match cs with
    | '.' :: cs2 =>
      let sp := spanP isAlnum cs2
      if sp.1 = [] then ([], cs, 0)
      else
        let r := dotSegsGo fuel sp.2
        ('.' :: (sp.1 ++ r.1), r.2.1, r.2.2 + 1)
    | _ => ([], cs, 0)

/-- Backtracking tail of `\|\s*(?P<name>[^\n€]+)` when the character after the
whitespace run `w` cannot start the name class (it is `€` or the end of the
page): the engine gives back the latest whitespace character that is not a
newline, which then forms a one-character name.  Returns the name and the
remainder after the match. -/
def nameFromWs (w r : List Char) : Option (List Char × List Char) :=
  match spanP (fun c => c = '\n') w.reverse with
  | (nls, c :: _) => some (c :: [], nls.reverse ++ r)
  | (_, []) => none

/-- Attempt of the pattern
`(?P<id>[A-Za-z0-9]+(?:\.[A-Za-z0-9]+)+)\s*\|\s*(?P<name>[^\n€]+)` anchored at
the head of the input (from `extract_product_data`).  Returns the id group,
the name group and the remainder after the whole match. -/
def matchIdAt (cs : List Char) : Option (List Char × List Char × List Char) :=
  let sp0 := spanP isAlnum cs
  if sp0.1 = [] then none
  else
    let ds := dotSegsGo sp0.2.length sp0.2
    if ds.2.2 = 0 then none
    else
      match (spanP pyIsSpace ds.2.1).2 with
      | '|' :: r4 =>
        let sw := spanP pyIsSpace r4
        match sw.2 with
        | [] =>
          match nameFromWs sw.1 [] with
          | some (n, rest) => some (sp0.1 ++ ds.1, n, rest)
          | none => none
        | c :: _ =>
          if c = '€' then
            match nameFromWs sw.1 sw.2 with
            | some (n, rest) => some (sp0.1 ++ ds.1, n, rest)
            | none => none
          else
            let sn := spanP notNlEuro sw.2
            some (sp0.1 ++ ds.1, sn.1, sn.2)
      | _ => none

/-- `re.finditer` scan for the identifier/name pattern: try every position
left to right, continue after the end of each (non-empty) match. -/
def findIdMatchesGo : Nat → List Char → List (List Char × List Char)
  | 0, _ => []
  | _, [] => []
  | fuel + 1, c :: cs =>
    match matchIdAt (c :: cs) with
    | some (pid, nm, rest) => (pid, nm) :: findIdMatchesGo fuel rest
    | none => findIdMatchesGo fuel cs

/-- All identifier/name matches of a page text, in text-stream order. -/
def findIdMatches (text : List Char) : List (List Char × List Char) :=
  findIdMatchesGo text.length text

/-- Tail `[\.,]\d{1,2}` of the price pattern: a separator and one or two
digits (greedy), returning the consumed characters and the remainder. -/
def priceTail : List Char → Option (List Char × List Char)
  | sep :: d1 :: d2 :: rest =>
    if (sep = '.' || sep = ',') && d1.isDigit then
      if d2.isDigit then some (sep :: d1 :: d2 :: [], rest)
      else some (sep :: d1 :: [], d2 :: rest)
    else none
  | sep :: d1 :: [] =>
    if (sep = '.' || sep = ',') && d1.isDigit then some (sep :: d1 :: [], [])
    else none
  | _ => none

/-- Attempt of `€\s*(?P<price>\d+[\.,]\d{1,2})` anchored at the head of the
input.  Returns the price group and the remainder after the match. -/
def matchPriceAt (cs : List Char) : Option (List Char × List Char) :=
  match cs with
  | '€' :: cs2 =>
    let r1 := (spanP pyIsSpace cs2).2
    let sd := spanP Char.isDigit r1
    match sd.1, priceTail sd.2 with
    | d :: dt, some (tl, rest) => some ((d :: dt) ++ tl, rest)
    | _, _ => none
  | _ => none

/-- `re.finditer` scan for the price pattern. -/
def findPriceMatchesGo : Nat → List Char → List (List Char)
  | 0, _ => []
  | _, [] => []
  | fuel + 1, c :: cs =>
    match matchPriceAt (c :: cs) with
    | some (g, rest) => g :: findPriceMatchesGo fuel rest
    | none => findPriceMatchesGo fuel cs

/-- All price groups of a page text, in text-stream order. -/
def findPriceMatches (text : List Char) : List (List Char) :=
  findPriceMatchesGo text.length text

/-- Record built for the `i`-th identifier/name match `m` of a page, given
the page's price groups `ps`: the body of the `for i, id_match in
enumerate(id_name_matches)` loop of `extract_product_data`. -/
def pricesPositionRecord (pageNum : Nat) (ps : List (List Char)) (i : Nat)
    (m : List Char × List Char) : Record :=
  let price : List Char :=
    match ps.get? i with
    | some pm => replaceComma pm
    | none => ("Not found").toList
  { page := pageNum, productId := m.1, name := pyStrip m.2,
    price := if price = ("Not found").toList then price else '€' :: price }

/-- Index-pairing loop: one record per identifier/name match, in order. -/
def pairAll (pageNum : Nat) (ps : List (List Char)) :
    Nat → List (List Char × List Char) → List Record
  | _, [] => []
  | i, m :: ms => pricesPositionRecord pageNum ps i m :: pairAll pageNum ps (i + 1) ms

/-- Records `extract_product_data` appends for one page of text. -/
def extractPage (pageNum : Nat) (text : List Char) : List Record :=
  pairAll pageNum (findPriceMatches text) 0 (findIdMatches text)

/-- Page loop of `extract_product_data` (`enumerate(doc, start=1)`). -/
def pricesPages : Nat → List (List Char) → List Record
  | _, [] => []
  | n, t :: ts => extractPage n t ++ pricesPages (n + 1) ts

/-- Script body of `extract_prices_position.py` after extraction: keep a
record when its stripped name is longer than three characters, and replace
its name by `clean_product_name` of it. -/
def cleanProducts (ps : List Record) : List Record :=
  ps.filterMap (fun p =>
    if 3 < (pyStrip p.name).length then
      some { p with name := clean_product_name p.name }
    else none)

/-- Valid-record set produced by the `extract_prices_position.py` script for
a document given as its list of page texts. -/
def prices_script_products (pages : List (List Char)) : List Record :=
  cleanProducts (pricesPages 1 pages)

/-- Observable end of the `extract_prices_position.py` script: the printed
total and whether the output CSV was written.  The `with open(...)` block is
unconditional in the script, so the second component is always `true`. -/
def prices_script_run (pages : List (List Char)) : Nat × Bool :=
  ((prices_script_products pages).length, true)

/-- `extract_product_data` paired with whether the document handle is closed
when it returns.  The function body contains no `doc.close()` on any path,
so the flag is `false`. -/
def extract_product_data_run (pages : List (List Char)) : List Record × Bool :=
  (pricesPages 1 pages, false)

/-- Axis-aligned page rectangle (PyMuPDF `fitz.Rect`), with rational
coordinates standing in for the library's floats. -/
structure Rect where
  x0 : ℚ
  y0 : ℚ
  x1 : ℚ
  y1 : ℚ
deriving DecidableEq, Repr

/-- One entry of `page.get_text("blocks")`: bounding box and text payload. -/
structure TextBlock where
  rect : Rect
  text : List Char
deriving DecidableEq, Repr

/-- One image primitive of a page: bounding rectangle of its placement,
decoded pixel dimensions, colorspace component count, and whether a CMYK or
other unsupported colorspace converts to RGB without an exception (the
behaviour of the external `fitz.Pixmap(fitz.csRGB, pix)` call). -/
structure PdfImage where
  rect : Rect
  width : Nat
  height : Nat
  csN : Nat
  rgbConvertible : Bool
deriving DecidableEq, Repr

/-- One CSV row of `extract_images_with_pattern`. -/
structure ImageRow where
  page : Nat
  imageIndex : Nat
  width : Nat
  height : Nat
  fullText : List Char
  idPart : List Char
  namePart : List Char
deriving DecidableEq, Repr

/-- The three geometric conditions of `extract_images_with_pattern`: the text
block lies below the image, is horizontally aligned within 100 page units,
and starts within 50 page units of the image's bottom edge. -/
def geomClose (imgRect : Rect) (b : TextBlock) : Bool :=
  decide (imgRect.y1 < b.rect.y0) &&
    decide (|b.rect.x0 - imgRect.x0| < 100) &&
    decide (b.rect.y0 - imgRect.y1 < 50)

/-- First text block (in stream order) that is geometrically close to the
image and whose stripped text matches the pattern: the `for block in
text_blocks` loop with its `break`. -/
def findMatchingBlock (pat : List Char → Bool) (imgRect : Rect)
    (blocks : List TextBlock) : Option TextBlock :=
  blocks.find? (fun b => geomClose imgRect b && pat (pyStrip b.text))

/-- Split of the matching text into id and name parts inside
`extract_images_with_pattern` (split on the first pipe, strip, drop the
leading dots/whitespace of the id). -/
def splitIdName (mt : List Char) : List Char × List Char :=
  if ('|') ∈ mt then
    let parts := splitOnFirstPipe mt
    (pyStrip (dropLeadingDotsSpaces (pyStrip parts.1)), pyStrip parts.2)
  else ([], [])

/-- Per-image body of `extract_images_with_pattern`: the image yields a saved
file and a CSV row only if some text block passes the geometric and pattern
checks, the colorspace is grayscale/RGB or converts to RGB, and both decoded
dimensions reach `minSize`; the size check precedes the save. -/
def processImage (minSize : Nat) (pat : List Char → Bool)
    (blocks : List TextBlock) (pageNum imgIndex : Nat) (img : PdfImage) :
    Option ImageRow :=
  match findMatchingBlock pat img.rect blocks with
  | none => none
  | some _ =>
    if img.csN ≠ 1 && img.csN ≠ 3 && !img.rgbConvertible then none
    else if img.width < minSize || img.height < minSize then none
    else
      let mt :=
        match findMatchingBlock pat img.rect blocks with
        | some b => pyStrip b.text
        | none => []
      let pr := splitIdName mt
      some { page := pageNum, imageIndex := imgIndex, width := img.width,
             height := img.height, fullText := mt, idPart := pr.1,
             namePart := pr.2 }

/-- One parsed row of `extract_product_text_data` restricted to the fields
the specification's claims mention (page, id, price); the remaining
best-effort fields (name, sizes, description) never decide whether a row is
produced, since `parse_product_text` returns a row whenever the chunk
contains a pipe. -/
structure InfoRecord where
  page : Nat
  infoId : List Char
  price : List Char
deriving DecidableEq, Repr

/-- Attempt of `[\d\w]+\.[\d\w]+[A-Z]?\s*\|` anchored at the head of the
input.  The optional `[A-Z]?` follows a greedy `[\d\w]+` whose class contains
`A-Z`, so it always matches empty; the attempt is word characters, a dot,
word characters, whitespace, a pipe.  Returns the match length and the
remainder after the match. -/
def matchInfoPatAt (cs : List Char) : Option (Nat × List Char) :=
  let s1 := spanP isWordChar cs
  if s1.1 = [] then none
  else
    match s1.2 with
    | '.' :: r2 =>
      let s2 := spanP isWordChar r2
      if s2.1 = [] then none
      else
        let sw := spanP pyIsSpace s2.2
        match sw.2 with
        | '|' :: r5 => some (s1.1.length + 1 + s2.1.length + sw.1.length + 1, r5)
        | _ => none
    | _ => none

/-- `re.finditer` scan for the product-info pattern, collecting the match
start offsets (`match.start()` is what the source uses). -/
def findInfoStartsGo : Nat → Nat → List Char → List Nat
  | 0, _, _ => []
  | _, _, [] => []
  | fuel + 1, pos, c :: cs =>
    match matchInfoPatAt (c :: cs) with
    | some (len, rest) => pos :: findInfoStartsGo fuel (pos + len) rest
    | none => findInfoStartsGo fuel (pos + 1) cs

/-- All product-info match start offsets of a page text. -/
def findInfoStarts (text : List Char) : List Nat :=
  findInfoStartsGo text.length 0 text

/-- Greedy `(?:[,.-]\d+)*` tail of the chunk price pattern. -/
def amountTailGo : Nat → List Char → List Char
  | 0, _ => []
  | fuel + 1, cs =>
    match cs with
    | c :: cs2 =>
      if c = ',' || c = '.' || c = '-' then
        let sd := spanP Char.isDigit cs2
        if sd.1 = [] then [] else c :: (sd.1 ++ amountTailGo fuel sd.2)
      else []
    | [] => []

/-- Attempt of `€\s*(\d+(?:[,.-]\d+)*)` anchored at the head of the input,
returning the captured group; note there is no comma normalisation here. -/
def matchChunkPriceAt (cs : List Char) : Option (List Char) :=
  match cs with
  | '€' :: cs2 =>
    let r1 := (spanP pyIsSpace cs2).2
    let sd := spanP Char.isDigit r1
    if sd.1 = [] then none else some (sd.1 ++ amountTailGo sd.2.length sd.2)
  | _ => none

/-- `re.search` for the chunk price pattern: group of the leftmost match. -/
def findChunkPriceGo : Nat → List Char → Option (List Char)
  | 0, _ => none
  | _, [] => none
  | fuel + 1, c :: cs =>
    match matchChunkPriceAt (c :: cs) with
    | some g => some g
    | none => findChunkPriceGo fuel cs

/-- First `€\s*(\d+(?:[,.-]\d+)*)` group inside a chunk, if any. -/
def findChunkPrice (s : List Char) : Option (List Char) :=
  findChunkPriceGo s.length s

/-- `parse_product_text` from `extract_product_info.py`, restricted to the
fields the claims mention: a chunk without a pipe yields no row; otherwise
the id is the stripped text before the first pipe with leading
dots/whitespace removed, and the price is the raw group of the first
currency amount in the stripped text after the pipe (empty if none). -/
def parse_product_text_model (chunk : List Char) (pageNum : Nat) :
    Option InfoRecord :=
  if ('|') ∈ chunk then
    let parts := splitOnFirstPipe chunk
    let productId := pyStrip (dropLeadingDotsSpaces (pyStrip parts.1))
    let restText := pyStrip parts.2
    let price :=
      match findChunkPrice restText with
      | some g => g
      | none => []
    some { page := pageNum, infoId := productId, price := price }
  else none

/-- Per-page body of `extract_product_text_data`: a ~1000-character chunk
from each match start is parsed into a row. -/
def infoPage (pageNum : Nat) (text : List Char) : List InfoRecord :=
  (findInfoStarts text).filterMap
    (fun s => parse_product_text_model (List.take 1000 (List.drop s text)) pageNum)

/-- Page loop of `extract_product_text_data` (`enumerate(doc)`, 1-based). -/
def infoPages : Nat → List (List Char) → List InfoRecord
  | _, [] => []
  | n, t :: ts => infoPage n t ++ infoPages (n + 1) ts

/-- Observable end of `extract_product_text_data`: the printed total and
whether the output CSV was written.  The source guards the CSV write with
`if extracted_products:`, so nothing is written when no product was found. -/
def extract_product_text_data_run (pages : List (List Char)) : Nat × Bool :=
  let prods := infoPages 1 pages
  (prods.length, !prods.isEmpty)

/-- Sequential page reading where `page.get_text()` may raise: the first
raising page aborts the whole loop. -/
def readPages : List (Except Unit (List Char)) → Except Unit (List (List Char))
  | [] => Except.ok []
  | p :: ps =>
    match p with
    | Except.ok t =>
      match readPages ps with
      | Except.ok ts => Except.ok (t :: ts)
      | Except.error e => Except.error e
    | Except.error e => Except.error e

/-- `extract_product_text_data` with fallible page reads, paired with whether
the document handle is closed when the function exits.  `doc.close()` is the
last statement of the function and is not inside any `try`/`finally`, so an
exception escaping the page loop propagates without closing the handle. -/
def extract_product_text_data_full (pages : List (Except Unit (List Char))) :
    Except Unit (Nat × Bool) × Bool :=
  match readPages pages with
  | Except.ok ts => (Except.ok (extract_product_text_data_run ts), true)
  | Except.error e => (Except.error e, false)

/-- One row of the CSV loaded by `search_price.py`. -/
structure CsvProduct where
  name : List Char
  price : List Char
  prodId : List Char
deriving DecidableEq, Repr

/-- `find_price` from `search_price.py`: rows whose lowered name contains the
lowered query as a substring, in table order. -/
def find_price (products : List CsvProduct) (query : List Char) :
    List CsvProduct :=
  products.filter (fun p => containsSub (lowerStr query) (lowerStr p.name))

/-- `main` from `search_price.py`, as a function of the input line: the
stripped query is rejected (no search performed, `none`) when empty,
otherwise `find_price` runs on it. -/
def main_model (products : List CsvProduct) (inputLine : List Char) :
    Option (List CsvProduct) :=
  let query := pyStrip inputLine
  if query = [] then none else some (find_price products query)

/-- Demonstration page text for the index-pairing witness. -/
def demoText1 : List Char := ("1.2 | A bc €3,5").toList

/-- Demonstration page text for the normalization witness. -/
def demoText2 : List Char := ("0.1 | Tee shirt €2,5").toList

/-- Demonstration pattern accepting every text (stands for a concrete regex
argument of `extract_images_with_pattern`). -/
def demoPat : List Char → Bool := fun _ => true

/-- Demonstration text block lying just below the demonstration image. -/
def demoBlocks : List TextBlock :=
  { rect := { x0 := 10, y0 := 310, x1 := 300, y1 := 330 },
    text := ("16.1426 | Shirt").toList } :: []

/-- Demonstration image: well placed but only 100 pixels wide. -/
def demoImg : PdfImage :=
  { rect := { x0 := 0, y0 := 0, x1 := 300, y1 := 300 },
    width := 100, height := 300, csN := 3, rgbConvertible := true }

/-- Demonstration product table for the lookup witnesses. -/
def demoProducts : List CsvProduct :=
  { name := ("Cotton Shirt").toList, price := ("19.99").toList,
    prodId := ("16.1426").toList } ::
  { name := ("Wool Hat").toList, price := ("9.50").toList,
    prodId := ("16.1427").toList } :: []

lemma spanP_fst_mem (p : Char → Bool) :
    ∀ l c, c ∈ (spanP p l).1 → p c = true := by
  intro l
  induction l with
  | nil => intro c hc; simp [spanP] at hc
  | cons a t ih =>
    intro c hc
    by_cases ha : p a = true
    · simp [spanP, ha] at hc
      rcases hc with rfl | hc
      · exact ha
      · exact ih c hc
    · simp [spanP, ha] at hc

lemma spanP_snd_mem (p : Char → Bool) :
    ∀ l c, c ∈ (spanP p l).2 → c ∈ l := by
  intro l
  induction l with
  | nil => intro c hc; simp [spanP] at hc
  | cons a t ih =>
    intro c hc
    by_cases ha : p a = true
    · simp [spanP, ha] at hc
      exact List.mem_cons_of_mem a (ih c hc)
    · simp [spanP, ha] at hc
      simpa using hc

lemma spanP_snd_head (p : Char → Bool) :
    ∀ l c t, (spanP p l).2 = c :: t → p c = false := by
  intro l
  induction l with
  | nil => intro c t hc; simp [spanP] at hc
  | cons a s ih =>
    intro c t hc
    by_cases ha : p a = true
    · simp [spanP, ha] at hc
      exact ih c t hc
    · simp [spanP, ha] at hc
      rcases hc with ⟨rfl, _⟩
      simpa using ha

lemma pyStrip_mem {s : List Char} {c : Char} (hc : c ∈ pyStrip s) : c ∈ s := by
  unfold pyStrip at hc
  rw [List.mem_reverse] at hc
  have h1 := spanP_snd_mem pyIsSpace _ c hc
  rw [List.mem_reverse] at h1
  exact spanP_snd_mem pyIsSpace _ c h1

lemma pairAll_length (pg : Nat) (ps : List (List Char)) :
    ∀ ms i, (pairAll pg ps i ms).length = ms.length := by
  intro ms
  induction ms with
  | nil => intro i; rfl
  | cons m t ih => intro i; simp [pairAll, ih]

lemma pairAll_get (pg : Nat) (ps : List (List Char)) :
    ∀ ms i k, (pairAll pg ps i ms).get? k =
      (ms.get? k).map (pricesPositionRecord pg ps (i + k)) := by
  intro ms
  induction ms with
  | nil => intro i k; simp [pairAll]
  | cons m t ih =>
    intro i k
    cases k with
    | zero => simp [pairAll]
    | succ k =>
      have hik : i + (k + 1) = (i + 1) + k := by omega
      rw [hik]
      simpa [pairAll] using ih (i + 1) k

lemma pairAll_mem (pg : Nat) (ps : List (List Char)) :
    ∀ ms i r, r ∈ pairAll pg ps i ms →
      ∃ j m, m ∈ ms ∧ r = pricesPositionRecord pg ps j m := by
  intro ms
  induction ms with
  | nil => intro i r hr; simp [pairAll] at hr
  | cons m t ih =>
    intro i r hr
    simp only [pairAll, List.mem_cons] at hr
    rcases hr with rfl | hr
    · exact ⟨i, m, List.mem_cons_self m t, rfl⟩
    · rcases ih (i + 1) r hr with ⟨j, m2, hm2, heq⟩
      exact ⟨j, m2, List.mem_cons_of_mem m hm2, heq⟩

lemma matchPriceAt_head {cs g rest : List Char}
    (h : matchPriceAt cs = some (g, rest)) :
    ∃ d t, g = d :: t ∧ d.isDigit = true := by
  unfold matchPriceAt at h
  split at h
  case h_2 => simp at h
  case h_1 c cs2 =>
    dsimp only at h
    split at h
    case h_2 => simp at h
    case h_1 d dt tl rest2 hds hpt =>
      simp only [Option.some.injEq, Prod.mk.injEq] at h
      refine ⟨d, dt ++ tl, by simp [← h.1], ?_⟩
      have hdm : d ∈ (spanP Char.isDigit ((spanP pyIsSpace cs2).2)).1 := by
        rw [hds]; exact List.mem_cons_self d dt
      exact spanP_fst_mem Char.isDigit _ d hdm

lemma findPriceMatchesGo_head :
    ∀ fuel cs g, g ∈ findPriceMatchesGo fuel cs →
      ∃ d t, g = d :: t ∧ d.isDigit = true := by
  intro fuel
  induction fuel with
  | zero => intro cs g hg; simp [findPriceMatchesGo] at hg
  | succ f ih =>
    intro cs g hg
    cases cs with
    | nil => simp [findPriceMatchesGo] at hg
    | cons c t =>
      unfold findPriceMatchesGo at hg
      split at hg
      case h_1 g2 rest2 hm =>
        rcases List.mem_cons.mp hg with rfl | hg2
        · exact matchPriceAt_head hm
        · exact ih _ g hg2
      case h_2 => exact ih _ g hg

lemma replaceComma_head_ne {g : List Char} {d : Char} {t : List Char}
    (hg : g = d :: t) (hd : d.isDigit = true) :
    replaceComma g ≠ ("Not found").toList := by
  subst hg
  intro h
  have hnf : ("Not found").toList = 'N' :: ("ot found").toList := rfl
  rw [hnf] at h
  simp only [replaceComma, List.map_cons, List.cons.injEq] at h
  rcases h with ⟨h1, _⟩
  by_cases hc : d = ','
  · rw [hc] at hd; simp [Char.isDigit] at hd
  · simp only [hc, if_false] at h1
    rw [h1] at hd
    simp [Char.isDigit] at hd

lemma nameFromWs_chars {w r n rest : List Char}
    (h : nameFromWs w r = some (n, rest))
    (hw : ∀ c ∈ w, pyIsSpace c = true) :
    ∀ c ∈ n, c ≠ '€' ∧ c ≠ '\n' := by
  unfold nameFromWs at h
  split at h
  case h_2 => simp at h
  case h_1 nls c t hsp =>
    simp only [Option.some.injEq, Prod.mk.injEq] at h
    intro x hx
    rw [← h.1] at hx
    simp only [List.mem_singleton] at hx
    subst hx
    have hsp2 : (spanP (fun c => decide (c = '\n')) w.reverse).2 = x :: t := by
      rw [hsp]
    have hc1 : (fun c => decide (c = '\n')) x = false :=
      spanP_snd_head _ w.reverse x t hsp2
    have hc2 : x ∈ w := by
      have : x ∈ (spanP (fun c => decide (c = '\n')) w.reverse).2 := by
        rw [hsp2]; exact List.mem_cons_self x t
      have := spanP_snd_mem _ _ x this
      exact List.mem_reverse.mp this
    have hws : pyIsSpace x = true := hw x hc2
    constructor
    · intro hx2
      rw [hx2] at hws
      simp [pyIsSpace] at hws
    · intro hx2
      rw [hx2] at hc1
      simp at hc1

lemma matchIdAt_name_chars {cs pid nm rest : List Char}
    (h : matchIdAt cs = some (pid, nm, rest)) :
    ∀ c ∈ nm, c ≠ '€' ∧ c ≠ '\n' := by
  unfold matchIdAt at h
  dsimp only at h
  split at h
  · simp at h
  · split at h
    · simp at h
    · split at h
      case h_1 r4 heq =>
        have hw : ∀ c ∈ (spanP pyIsSpace r4).1, pyIsSpace c = true :=
          fun c hc => spanP_fst_mem pyIsSpace r4 c hc
        split at h
        · split at h
          case h_1 n2 rest2 hnw =>
            simp only [Option.some.injEq, Prod.mk.injEq] at h
            rcases h with ⟨_, h2, _⟩
            subst h2
            exact nameFromWs_chars hnw hw
          case h_2 => simp at h
        · split at h
          · split at h
            case h_1 n2 rest2 hnw =>
              simp only [Option.some.injEq, Prod.mk.injEq] at h
              rcases h with ⟨_, h2, _⟩
              subst h2
              exact nameFromWs_chars hnw hw
            case h_2 => simp at h
          · simp only [Option.some.injEq, Prod.mk.injEq] at h
            rcases h with ⟨_, h2, _⟩
            subst h2
            intro c hc
            have := spanP_fst_mem notNlEuro _ c hc
            simp only [notNlEuro, Bool.not_eq_true', Bool.or_eq_false_iff,
              decide_eq_false_iff_not] at this
            exact ⟨this.2, this.1⟩
      case h_2 heq2 => simp at h

lemma findIdMatchesGo_name_chars :
    ∀ fuel cs m, m ∈ findIdMatchesGo fuel cs →
      ∀ c ∈ m.2, c ≠ '€' ∧ c ≠ '\n' := by
  intro fuel
  induction fuel with
  | zero => intro cs m hm; simp [findIdMatchesGo] at hm
  | succ f ih =>
    intro cs m hm
    cases cs with
    | nil => simp [findIdMatchesGo] at hm
    | cons c t =>
      unfold findIdMatchesGo at hm
      split at hm
      case h_1 pid nm rest2 hmt =>
        rcases List.mem_cons.mp hm with rfl | hm2
        · exact matchIdAt_name_chars hmt
        · exact ih _ m hm2
      case h_2 => exact ih _ m hm

lemma find_first_iff {α : Type} (p : α → Bool) (l : List α) (a : α) :
    l.find? p = some a ↔
      p a = true ∧ ∃ l1 l2, l = l1 ++ a :: l2 ∧ ∀ x ∈ l1, p x = false := by
  induction l with
  | nil => simp
  | cons b t ih =>
    by_cases hb : p b = true
    · rw [List.find?_cons_of_pos t hb]
      constructor
      · intro h
        injection h with h
        subst h
        exact ⟨hb, [], t, rfl, by simp⟩
      · rintro ⟨hpa, l1, l2, hsplit, hall⟩
        cases l1 with
        | nil =>
          simp only [List.nil_append, List.cons.injEq] at hsplit
          rw [hsplit.1]
        | cons x l1t =>
          simp only [List.cons_append, List.cons.injEq] at hsplit
          have hx : p b = false := by
            have hpx := hall x (List.mem_cons_self x l1t)
            rw [hsplit.1]
            exact hpx
          exact absurd hb (by simp [hx])
    · rw [List.find?_cons_of_neg t hb]
      rw [ih]
      constructor
      · rintro ⟨hpa, l1, l2, hsplit, hall⟩
        refine ⟨hpa, b :: l1, l2, by simp [hsplit], ?_⟩
        intro x hx
        rcases List.mem_cons.mp hx with rfl | hx2
        · simpa using hb
        · exact hall x hx2
      · rintro ⟨hpa, l1, l2, hsplit, hall⟩
        cases l1 with
        | nil =>
          simp only [List.nil_append, List.cons.injEq] at hsplit
          rw [hsplit.1] at hb
          exact absurd hpa hb
        | cons x l1t =>
          simp only [List.cons_append, List.cons.injEq] at hsplit
          refine ⟨hpa, l1t, l2, hsplit.2, ?_⟩
          intro y hy
          exact hall y (List.mem_cons_of_mem x hy)

lemma assocCond_iff (pat : List Char → Bool) (r : Rect) (x : TextBlock) :
    (geomClose r x && pat (pyStrip x.text)) = true ↔
      (r.y1 < x.rect.y0 ∧ |x.rect.x0 - r.x0| < 100 ∧
        x.rect.y0 - r.y1 < 50 ∧ pat (pyStrip x.text) = true) := by
  simp [geomClose, Bool.and_eq_true, decide_eq_true_eq, and_assoc]

lemma containsSub_nil (hay : List Char) : containsSub [] hay = true := by
  cases hay with
  | nil => rfl
  | cons c t => simp [containsSub, startsWithL]

lemma extractPage_get_price_pos (pageNum : Nat) (text : List Char) (i : Nat)
    (pm : List Char) (hpm : (findPriceMatches text).get? i = some pm)
    (hi : i < (findIdMatches text).length) :
    ((extractPage pageNum text).get? i).map Record.price =
      some ('€' :: replaceComma pm) := by
  obtain ⟨m, hm⟩ : ∃ m, (findIdMatches text).get? i = some m := by
    rw [List.get?_eq_get hi]; exact ⟨_, rfl⟩
  rw [extractPage, pairAll_get, hm]
  have hne : replaceComma pm ≠ ("Not found").toList := by
    obtain ⟨d, t, hdt, hd⟩ :=
      findPriceMatchesGo_head text.length text pm (List.get?_mem hpm)
    exact replaceComma_head_ne hdt hd
  have hpm2 : (findPriceMatches text)[i]? = some pm := by
    rw [← List.get?_eq_getElem?]; exact hpm
  have hne2 : replaceComma pm ≠
      'N' :: 'o' :: 't' :: ' ' :: 'f' :: 'o' :: 'u' :: 'n' :: 'd' :: [] := hne
  simp [pricesPositionRecord, Nat.zero_add, hpm2, hne2]

/-- C1: for every page text with N identifier/name matches and M price
matches, `extract_product_data` emits exactly N records for that page, in
match order; for every i < min(N,M) the i-th record's price is the i-th
price match with its comma decimal separator replaced by a dot and prefixed
with the euro sign, and for every i with M ≤ i < N the i-th record's price
is the sentinel string "Not found". -/
theorem extract_product_data_index_pairing (pageNum : Nat) (text : List Char) :
    (extractPage pageNum text).length = (findIdMatches text).length ∧
    (∀ i m, (findIdMatches text).get? i = some m →
      ((extractPage pageNum text).get? i).map
          (fun r => (r.page, r.productId, r.name)) =
        some (pageNum, m.1, pyStrip m.2)) ∧
    (∀ i pm, (findPriceMatches text).get? i = some pm →
      i < (findIdMatches text).length →
      ((extractPage pageNum text).get? i).map Record.price =
        some ('€' :: replaceComma pm)) ∧
    (∀ i, i < (findIdMatches text).length →
      (findPriceMatches text).length ≤ i →
      ((extractPage pageNum text).get? i).map Record.price =
        some (("Not found").toList)) := by
  refine ⟨pairAll_length pageNum (findPriceMatches text) (findIdMatches text) 0,
    ?_, ?_, ?_⟩
  · intro i m hm
    rw [extractPage, pairAll_get, hm]
    simp [pricesPositionRecord]
  · intro i pm hpm hi
    exact extractPage_get_price_pos pageNum text i pm hpm hi
  · intro i hi hlen
    obtain ⟨m, hm⟩ : ∃ m, (findIdMatches text).get? i = some m := by
      rw [List.get?_eq_get hi]; exact ⟨_, rfl⟩
    rw [extractPage, pairAll_get, hm]
    have hnone : (findPriceMatches text).get? i = none :=
      List.get?_eq_none.mpr hlen
    have hnone2 : (findPriceMatches text)[i]? = none := by
      rw [← List.get?_eq_getElem?]; exact hnone
    simp [pricesPositionRecord, Nat.zero_add, hnone2]

/-- C1 witness: on the concrete page text `demoText1` the first price match
is the group of `€3,5`, and the first record's price is `€3.5`. -/
theorem extract_product_data_index_pairing_witness :
    ((extractPage 1 demoText1).get? 0).map Record.price =
      some ('€' :: replaceComma (("3,5").toList)) :=
  (extract_product_data_index_pairing 1 demoText1).2.2.1 0 (("3,5").toList)
    (by decide) (by decide)

/-- C2: an image and a text block are associated exactly when the text block
starts below the image's bottom edge, its left edge is within 100 page units
of the image's, the vertical gap is under 50 page units, and its stripped
text matches the identifier pattern; among several such blocks the first one
in text-stream order is the one chosen. -/
theorem image_text_association_first_match (pat : List Char → Bool) (r : Rect)
    (bs : List TextBlock) (b : TextBlock) :
    findMatchingBlock pat r bs = some b ↔
      (r.y1 < b.rect.y0 ∧ |b.rect.x0 - r.x0| < 100 ∧ b.rect.y0 - r.y1 < 50 ∧
        pat (pyStrip b.text) = true) ∧
      ∃ pre post, bs = pre ++ b :: post ∧
        ∀ x ∈ pre, ¬(r.y1 < x.rect.y0 ∧ |x.rect.x0 - r.x0| < 100 ∧
          x.rect.y0 - r.y1 < 50 ∧ pat (pyStrip x.text) = true) := by
  rw [findMatchingBlock, find_first_iff]
  constructor
  · rintro ⟨hpb, l1, l2, hsplit, hall⟩
    refine ⟨(assocCond_iff pat r b).mp hpb, l1, l2, hsplit, ?_⟩
    intro x hx
    rw [← assocCond_iff pat r x]
    simp [hall x hx]
  · rintro ⟨hb, l1, l2, hsplit, hall⟩
    refine ⟨(assocCond_iff pat r b).mpr hb, l1, l2, hsplit, ?_⟩
    intro x hx
    have hc := hall x hx
    rw [← assocCond_iff pat r x] at hc
    simpa using hc

/-- C3 counterexample: on the page text `a1.2 | ab,cd €1.00` the extracted
name is `ab,cd`, which contains a comma, so a comma does not terminate the
name run as the claim states. -/
theorem extracted_name_contains_comma :
    (extractPage 1 (("a1.2 | ab,cd €1.00").toList)).map Record.name =
      (("ab,cd").toList) :: [] ∧
    (',') ∈ (("ab,cd").toList) := by decide

/-- C3 (amended): each extracted name is the text run following the pipe
delimiter and is terminated only by a currency sigil, a newline, or the end
of the page text — no extracted name contains the euro sign or a newline,
but commas may occur inside names. -/
theorem extracted_name_terminators (pageNum : Nat) (text : List Char)
    (r : Record) (hr : r ∈ extractPage pageNum text) :
    ('€' ∉ r.name) ∧ ('\n' ∉ r.name) := by
  rcases pairAll_mem pageNum (findPriceMatches text) (findIdMatches text)
      0 r hr with ⟨j, m, hm, rfl⟩
  have hname := findIdMatchesGo_name_chars text.length text m hm
  have hn : (pricesPositionRecord pageNum (findPriceMatches text) j m).name =
      pyStrip m.2 := rfl
  rw [hn]
  constructor
  · intro hc
    exact absurd rfl ((hname '€' (pyStrip_mem hc)).1)
  · intro hc
    exact absurd rfl ((hname '\n' (pyStrip_mem hc)).2)

/-- C3 witness: the record extracted from `a1.2 | ab,cd €1.00` has a name
free of euro signs and newlines. -/
theorem extracted_name_terminators_witness :
    ('€' ∉ (Record.mk 1 (("a1.2").toList) (("ab,cd").toList)
        (("€1.00").toList)).name) ∧
    ('\n' ∉ (Record.mk 1 (("a1.2").toList) (("ab,cd").toList)
        (("€1.00").toList)).name) :=
  extracted_name_terminators 1 (("a1.2 | ab,cd €1.00").toList)
    (Record.mk 1 (("a1.2").toList) (("ab,cd").toList) (("€1.00").toList))
    (by decide)

/-- C4: `find_price` returns exactly the subset of records whose name
contains the query as a case-insensitive substring, preserving table order,
and the CLI `main` rejects a whitespace-only input line before any search. -/
theorem find_price_substring_match (products : List CsvProduct)
    (query : List Char) :
    List.Sublist (find_price products query) products ∧
    (∀ p, p ∈ find_price products query ↔
      p ∈ products ∧ containsSub (lowerStr query) (lowerStr p.name) = true) ∧
    (∀ inp : List Char, pyStrip inp = [] → main_model products inp = none) := by
  refine ⟨List.filter_sublist products, ?_, ?_⟩
  · intro p
    simp [find_price, List.mem_filter]
  · intro inp hinp
    simp [main_model, hinp]

/-- C4 witness: on the demonstration table, the query `shi` matches the
Cotton Shirt row and a whitespace-only input line is rejected by `main`. -/
theorem find_price_substring_match_witness :
    main_model demoProducts (("   ").toList) = none :=
  (find_price_substring_match demoProducts (("shi").toList)).2.2
    (("   ").toList) (by decide)

/-- C5 counterexample: `parse_product_text` keeps the raw first currency
group of the chunk `ab.cd | x € 19,99` — the stored price is `19,99`, whose
comma is not replaced by a dot. -/
theorem field_parser_price_keeps_comma :
    (infoPage 1 (("ab.cd | x € 19,99").toList)).map InfoRecord.price =
      (("19,99").toList) :: [] ∧
    replaceComma (("19,99").toList) ≠ ("19,99").toList := by decide

/-- C5 (amended): replacing the comma decimal separator by a dot is
idempotent and maps `19,99` and `19.99` both to `19.99`, and
`extract_product_data` applies it to every index-paired price; the field
sub-parser of `parse_product_text`, however, stores the first currency
group verbatim, without this normalization. -/
theorem decimal_normalization_amended :
    (∀ s : List Char, replaceComma (replaceComma s) = replaceComma s) ∧
    replaceComma (("19,99").toList) = ("19.99").toList ∧
    replaceComma (("19.99").toList) = ("19.99").toList ∧
    (∀ text pageNum i pm, (findPriceMatches text).get? i = some pm →
      i < (findIdMatches text).length →
      ((extractPage pageNum text).get? i).map Record.price =
        some ('€' :: replaceComma pm)) ∧
    (∀ chunk pageNum r, parse_product_text_model chunk pageNum = some r →
      r.price = ((findChunkPrice (pyStrip (splitOnFirstPipe chunk).2)).getD [])) := by
  refine ⟨?_, by decide, by decide, ?_, ?_⟩
  · intro s
    induction s with
    | nil => rfl
    | cons c t ih =>
      by_cases hc : c = ','
      · simp [replaceComma, hc] at ih ⊢
        exact ih
      · simp [replaceComma, hc] at ih ⊢
        exact ih
  · intro text pageNum i pm hpm hi
    exact extractPage_get_price_pos pageNum text i pm hpm hi
  · intro chunk pageNum r hr
    unfold parse_product_text_model at hr
    split at hr
    · simp only [Option.some.injEq] at hr
      rw [← hr]
      cases hf : findChunkPrice (pyStrip (splitOnFirstPipe chunk).2) with
      | none => simp [hf]
      | some g => simp [hf]
    · simp at hr

/-- C5 witness: on the concrete page text `demoText2` the first paired price
is the normalized group of `€2,5`. -/
theorem decimal_normalization_amended_witness :
    ((extractPage 1 demoText2).get? 0).map Record.price =
      some ('€' :: replaceComma (("2,5").toList)) :=
  decimal_normalization_amended.2.2.2.1 demoText2 1 0 (("2,5").toList)
    (by decide) (by decide)

/-- C6 counterexample: the extracted name `a  b` has stripped length 4, so
the script keeps its record, yet after full whitespace normalization the
kept record's name `a b` has length 3 — a record whose normalized name has
length at most 3 is not excluded from the valid-record set. -/
theorem short_normalized_name_kept :
    prices_script_products ((("1.2 | a  b").toList) :: []) =
      (Record.mk 1 (("1.2").toList) (("a b").toList)
        (("Not found").toList)) :: [] ∧
    (clean_product_name (("a  b").toList)).length ≤ 3 := by decide

/-- C6 (amended): the validity filter tests the stripped name, not the fully
normalized one — a record is kept, with its name then whitespace-normalized
by `clean_product_name`, exactly when its stripped name is longer than three
characters; a kept record's normalized name may still be three characters or
shorter. -/
theorem clean_filter_characterization (ps : List Record) (r : Record) :
    r ∈ cleanProducts ps ↔
      ∃ q, q ∈ ps ∧ 3 < (pyStrip q.name).length ∧
        r = { q with name := clean_product_name q.name } := by
  simp only [cleanProducts, List.mem_filterMap]
  constructor
  · rintro ⟨q, hq, hval⟩
    by_cases h3 : 3 < (pyStrip q.name).length
    · rw [if_pos h3] at hval
      injection hval with hval
      exact ⟨q, hq, h3, hval.symm⟩
    · rw [if_neg h3] at hval
      exact absurd hval (by simp)
  · rintro ⟨q, hq, h3, rfl⟩
    exact ⟨q, hq, by rw [if_pos h3]⟩

/-- C7: an image whose decoded width or height is strictly below the
configured minimum yields no saved file and no CSV row, regardless of any
text block satisfying the geometric and pattern constraints. -/
theorem min_size_filter_blocks_record (minSize : Nat) (pat : List Char → Bool)
    (blocks : List TextBlock) (pageNum imgIndex : Nat) (img : PdfImage)
    (h : img.width < minSize ∨ img.height < minSize) :
    processImage minSize pat blocks pageNum imgIndex img = none := by
  unfold processImage
  split
  · rfl
  · split
    · rfl
    · split
      · rfl
      · rename_i hcond
        exfalso
        apply hcond
        simpa using h

/-- C7 witness: the demonstration image is 100 pixels wide, below the
default minimum of 200, and yields no row despite the matching block. -/
theorem min_size_filter_blocks_record_witness :
    processImage 200 demoPat demoBlocks 1 1 demoImg = none :=
  min_size_filter_blocks_record 200 demoPat demoBlocks 1 1 demoImg
    (Or.inl (by decide))

/-- C8 counterexample: a document whose single page yields no product makes
`extract_product_text_data` print the count 0 yet write no output CSV (the
write is guarded by `if extracted_products:`). -/
theorem info_run_zero_count_no_csv :
    extract_product_text_data_run ((("no products here").toList) :: []) =
      (0, false) := by decide

/-- C8 (amended): every run prints a count of records found; the
`extract_prices_position` script always writes its output CSV, even for a
zero count, but `extract_product_text_data` writes its CSV exactly when the
count is non-zero. -/
theorem run_completion_amended (pages : List (List Char)) :
    (prices_script_run pages).2 = true ∧
    ((extract_product_text_data_run pages).2 = true ↔
      (extract_product_text_data_run pages).1 ≠ 0) := by
  refine ⟨rfl, ?_⟩
  simp [extract_product_text_data_run, List.isEmpty_iff, List.length_eq_zero]

/-- C9 counterexample: a successful run of `extract_product_data` over one
page terminates with the document handle still open — the function contains
no `doc.close()` on any path. -/
theorem extract_product_data_never_closes :
    (extract_product_data_run ((("1.2 | Shirt €5.00").toList) :: [])).2 =
      false := by decide

/-- C9 (amended): `extract_product_data` never closes the document handle,
and `extract_product_text_data` closes it exactly on the normal-completion
path — an exception raised while reading a page propagates out of the
function without reaching the final `doc.close()`. -/
theorem document_close_paths (pages : List (List Char))
    (epages : List (Except Unit (List Char))) :
    (extract_product_data_run pages).2 = false ∧
    ((extract_product_text_data_full epages).2 = true ↔
      ∃ ts, readPages epages = Except.ok ts) := by
  refine ⟨rfl, ?_⟩
  unfold extract_product_text_data_full
  cases h : readPages epages with
  | ok ts => simp [h]
  | error e => simp [h]

/-- C10: `find_price` applied to the empty query returns the entire table
unchanged and in order (the empty string is a substring of every name), so
the empty-query rejection exists only in the CLI `main`, which answers
`none` without searching. -/
theorem find_price_empty_query_returns_all (products : List CsvProduct) :
    find_price products [] = products ∧ main_model products [] = none := by
  constructor
  · unfold find_price
    rw [List.filter_eq_self]
    intro p _
    simpa [lowerStr] using containsSub_nil (lowerStr p.name)
  · rfl
